import Mathlib

/-!
# GameEdge Intelligence — verification development

Shallow embedding of the GameEdge Intelligence repository: the frontend
dashboard pages that exist under `src/` (the sentiment page's
`analyzeSentiment` handler and the customers page's churn-risk bucketing),
and the data-transformation / customer-segmentation pipeline that the
repository's documentation (`spec.md`, README) describes but whose code is
absent from the source tree.  Definitions for the latter are explicitly
marked `Modelled from the spec:`.

JavaScript numbers are modelled as `ℚ` (no behaviour in scope depends on
binary rounding), machine integers as `ℕ`, and the demo page's asynchronous
fetch is modelled by passing the fetch outcome as an explicit argument.
-/

set_option autoImplicit false

/-! ## Generic string helpers (JS `trim`, `toLowerCase`, `includes`) -/

/-- `beginsWith needle hay` is true when `needle` is an initial segment of
`hay` (character-by-character). -/
def beginsWith : List Char → List Char → Bool
  | [], _ => true
  | _ :: _, [] => false
  | a :: as, b :: bs => a = b && beginsWith as bs

/-- `containsSub hay needle`: does `needle` occur contiguously inside `hay`?
Models JavaScript `String.prototype.includes`. -/
def containsSub : List Char → List Char → Bool
  | [], needle => needle.isEmpty
  | c :: t, needle => beginsWith needle (c :: t) || containsSub t needle

/-- JS `String.prototype.includes` lifted to `String`. -/
def jsIncludes (hay needle : String) : Bool :=
  containsSub hay.toList needle.toList

/-- JS `String.prototype.toLowerCase` (ASCII-faithful). -/
def jsToLower (s : String) : String := ⟨s.toList.map Char.toLower⟩

/-- Whitespace characters removed by JS `String.prototype.trim`. -/
def jsWhitespace (c : Char) : Bool :=
  c = ' ' || c = '\t' || c = '\n' || c = '\r' || c = '\x0b' || c = '\x0c'

/-- JS `String.prototype.trim`: strip whitespace from both ends. -/
def jsTrim (s : String) : String :=
  ⟨((s.toList.dropWhile jsWhitespace).reverse.dropWhile jsWhitespace).reverse⟩

namespace Frontend

/-! ## `src/frontend/app/customers/page.tsx` -/

/-- `getChurnRiskColor` from `customers/page.tsx`: CSS classes keyed on the
same thresholds as the risk label. -/
def getChurnRiskColor (risk : ℚ) : String :=
  if risk < 3/10 then "text-green-600 bg-green-100 dark:bg-green-900/20"
  else if risk < 6/10 then "text-yellow-600 bg-yellow-100 dark:bg-yellow-900/20"
  else "text-red-600 bg-red-100 dark:bg-red-900/20"

/-- `getChurnRiskLabel` from `customers/page.tsx`:
`risk < 0.3 → "Low"`, `risk < 0.6 → "Medium"`, otherwise `"High"`. -/
def getChurnRiskLabel (risk : ℚ) : String :=
  if risk < 3/10 then "Low"
  else if risk < 6/10 then "Medium"
  else "High"

/-! ## `src/unnamed/part_002` (sentiment page) -/

/-- The result object built by the sentiment page (shape of both the mock
results and the parsed backend response). -/
structure MockResult where
  text : String
  sentiment_label : String
  sentiment_score : ℚ
  confidence_score : ℚ
  aspects : List String
  timestamp : String
  deriving DecidableEq, Repr

/-- The component state of `SentimentPage` (`useState` hooks).  The page
data (`data` hook, holding `mockSentimentData`) is never inspected by
`analyzeSentiment`, so its type is a parameter. -/
structure PageState (δ : Type) where
  isLoading : Bool
  inputText : String
  analysisResult : Option MockResult
  data : δ
  deriving DecidableEq

/-- Outcome of the `fetch` call inside `analyzeSentiment`. -/
inductive FetchOutcome where
  | ok (result : MockResult)
  | notOk
  | threw
  deriving DecidableEq

/-- The mock result built on the `!response.ok` branch of
`analyzeSentiment` (lines 96–109 of the sentiment page): substring tests on
the lowercased input, `'great'` checked before `'terrible'`, confidence
fixed at 0.85. -/
def mockNotOkResult (input now : String) : MockResult :=
  { text := input
    sentiment_label :=
      if jsIncludes (jsToLower input) "great" then "positive"
      else if jsIncludes (jsToLower input) "terrible" then "negative"
      else "neutral"
    sentiment_score :=
      if jsIncludes (jsToLower input) "great" then 4/5
      else if jsIncludes (jsToLower input) "terrible" then -7/10
      else 1/10
    confidence_score := 17/20
    aspects := ["general"]
    timestamp := now }

/-- The mock result built on the `catch` branch of `analyzeSentiment`
(lines 110–121): neutral, score 0, confidence 0.75. -/
def mockCatchResult (input now : String) : MockResult :=
  { text := input
    sentiment_label := "neutral"
    sentiment_score := 0
    confidence_score := 3/4
    aspects := ["general"]
    timestamp := now }

/-- `analyzeSentiment` from the sentiment page, run to completion.  Returns
the final component state together with whether a network request was
issued.  The guard `if (!inputText.trim()) return` exits before any state
update; otherwise `setIsLoading(true)` runs, the fetch resolves to
`outcome`, the result (backend body, not-ok mock, or catch mock) is stored
in `analysisResult`, and the `finally` block sets `isLoading` back to
`false`. -/
def analyzeSentiment {δ : Type} (s : PageState δ) (outcome : FetchOutcome)
    (now : String) : PageState δ × Bool :=
  if jsTrim s.inputText = "" then (s, false)
  else
    let result :=
      match outcome with
      | .ok r => r
      | .notOk => mockNotOkResult s.inputText now
      | .threw => mockCatchResult s.inputText now
    ({ s with isLoading := false, analysisResult := some result }, true)

end Frontend

namespace Pipeline

/-!
## The data-transformation pipeline

Modelled from the spec: the repository contains no executable pipeline code
(`spec.md` §1: "No backend, ML model, or data-pipeline code is included in
the source; only its description exists in documentation").  Every
definition in this namespace is built from the spec's component design
(§3 data model, §4.2 Schema Transformer, §4.3 Feature Engine, §4.6
Sentiment Analyzer, §4.7 Orchestrator) and its design notes (§9: seeded,
explicitly injected randomness).
-/

/-- Modelled from the spec: a linear congruential PRNG standing in for the
explicitly seeded generator required by §9 ("must be seeded and injected
explicitly"). -/
def rngNext (s : ℕ) : ℕ := (s * 1103515245 + 12345) % 2 ^ 31

/-- Modelled from the spec (§3 User): identity, source customer identifier,
raw RFM aggregates seeded by the Schema Transformer, ordinal RFM scores
written by the Feature Engine, and the low-population quality flag of
§4.3's default fallback. -/
structure User where
  uid : ℕ
  sourceCustomerId : ℕ
  recencyRaw : ℕ
  frequencyRaw : ℕ
  monetaryRaw : ℚ
  rScore : ℕ
  fScore : ℕ
  mScore : ℕ
  lowDataFlag : Bool
  deriving DecidableEq, Repr

/-- Modelled from the spec (§3 Bet): a transaction attributed to a User. -/
structure Bet where
  betId : ℕ
  userId : ℕ
  sport : String
  stake : ℚ
  odds : ℚ
  outcomeWin : Bool
  deriving DecidableEq, Repr

/-- Modelled from the spec (§3 Interaction): a text record attributed to a
User with sentiment label, signed score and confidence. -/
structure Interaction where
  iid : ℕ
  userId : ℕ
  text : String
  label : String
  score : ℚ
  confidence : ℚ
  deriving DecidableEq, Repr

/-- Modelled from the spec (§4.1/§4.2): one raw row of one of the three
dataset kinds (labeled short text, retail transaction, match/odds). -/
inductive RawRow where
  | sentimentRow (rowId : ℕ) (text : String) (positive : Bool)
  | retailRow (rowId : ℕ) (customerId : ℕ) (amount : ℚ) (daysAgo : ℕ)
  | matchRow (matchId : ℕ) (sport : String) (homeWon : Bool)
  deriving DecidableEq, Repr

/-- The materialized entity sets, each keyed by a stable identifier (users
by source customer id, bets and interactions by their entity id), so that
re-running the transformation recognizes already-created entities. -/
structure TransformState where
  users : List (ℕ × User)
  bets : List (ℕ × Bet)
  interactions : List (ℕ × Interaction)
  deriving DecidableEq, Repr

def initState : TransformState := ⟨[], [], []⟩

/-- Key lookup in a keyed entity list. -/
def hasKey {α : Type} (k : ℕ) : List (ℕ × α) → Bool
  | [] => false
  | p :: t => p.1 == k || hasKey k t

/-- Uniform draw below `n` together with the advanced generator state. -/
def draw (rng n : ℕ) : ℕ := rng % n

/-- Key space for users created as placeholders (spec §4.2: "creates a
placeholder pool if none exist yet"), disjoint from retail customer ids. -/
def placeholderBase : ℕ := 1000000000

/-- Key space for bets synthesized from match rows, disjoint from the bets
generated from retail rows (keyed by retail row id). -/
def matchKeyOffset : ℕ := 2000000000

def defaultUser : User :=
  { uid := 0, sourceCustomerId := 0, recencyRaw := 0, frequencyRaw := 0
    monetaryRaw := 0, rScore := 0, fScore := 0, mScore := 0, lowDataFlag := false }

def defaultUserEntry : ℕ × User := (0, defaultUser)

/-- Modelled from the spec (§4.2): placeholder user for text records that
arrive before any retail user exists. -/
def placeholderUser (rowId : ℕ) : User :=
  { uid := placeholderBase + rowId, sourceCustomerId := placeholderBase + rowId
    recencyRaw := 0, frequencyRaw := 0, monetaryRaw := 0
    rScore := 0, fScore := 0, mScore := 0, lowDataFlag := false }

/-- Rows of the retail dataset belonging to one customer identifier. -/
def retailGroup (cid : ℕ) (rows : List RawRow) : List RawRow :=
  rows.filter fun r =>
    match r with
    | .retailRow _ c _ _ => c == cid
    | _ => false

def rowAmount : RawRow → ℚ
  | .retailRow _ _ amount _ => amount
  | _ => 0

def rowDaysAgo : RawRow → ℕ
  | .retailRow _ _ _ daysAgo => daysAgo
  | _ => 0

/-- Modelled from the spec (§4.2): the retail group's transaction history
seeds the RFM inputs directly — recency is days since the most recent
transaction, frequency the transaction count, monetary the total amount. -/
def mkRetailUser (cid : ℕ) (rows : List RawRow) : User :=
  let group := retailGroup cid rows
  { uid := cid, sourceCustomerId := cid
    recencyRaw := (group.map rowDaysAgo).foldl min 1000000
    frequencyRaw := group.length
    monetaryRaw := (group.map rowAmount).foldl (· + ·) 0
    rScore := 0, fScore := 0, mScore := 0, lowDataFlag := false }

/-- Modelled from the spec (§4.2): the two-class source label mapped to
positive/negative; the source label is taken at full confidence. -/
def mkInteraction (rowId uid : ℕ) (text : String) (positive : Bool) : Interaction :=
  { iid := rowId, userId := uid, text := text
    label := if positive then "positive" else "negative"
    score := if positive then 1 else -1
    confidence := 1 }

def sportsPool : List String := ["football", "basketball", "baseball", "hockey", "soccer"]

/-- Modelled from the spec (§4.2): a retail purchase becomes one Bet with
the purchase amount as stake and a synthetically generated sport and
outcome (50% win-rate prior). -/
def mkRetailBet (rowId cid : ℕ) (amount : ℚ) (sportIdx winRoll : ℕ) : Bet :=
  { betId := rowId, userId := cid
    sport := sportsPool.getD sportIdx "football"
    stake := amount, odds := 2, outcomeWin := winRoll < 50 }

/-- Modelled from the spec (§4.2): a match row becomes a bet whose outcome
is derived deterministically from the recorded match result against the
simulated bet side. -/
def mkMatchBet (betId uid : ℕ) (sport : String) (homeWon : Bool)
    (sideRoll stakeRoll : ℕ) : Bet :=
  { betId := betId, userId := uid, sport := sport
    stake := (stakeRoll : ℚ) + 1, odds := 2
    outcomeWin := (sideRoll = 0) = homeWon }

/-- Modelled from the spec (§4.2): processing of one raw row by the Schema
Transformer.  `rows` is the full raw row set (retail aggregates are
computed over the customer's whole group).  Every created entity is keyed
by a stable identifier and is only created when its key is absent, which
realizes the spec's idempotence invariant; the PRNG advances only when an
entity is actually created.  For a match row with an empty user pool a
placeholder bettor is created, mirroring the placeholder pool of the
text branch (the spec samples the bettor "from the existing User pool" and
leaves the empty-pool case to the implementer). -/
def transformStep (rows : List RawRow) (p : TransformState × ℕ) (row : RawRow) :
    TransformState × ℕ :=
  let st := p.1
  let rng := p.2
  match row with
  | .sentimentRow rowId text positive =>
    if hasKey rowId st.interactions then p
    else if st.users = [] then
      let pu := placeholderUser rowId
      ({ st with
          users := (pu.sourceCustomerId, pu) :: st.users
          interactions := (rowId, mkInteraction rowId pu.uid text positive) ::
            st.interactions }, rng)
    else
      let idx := draw rng st.users.length
      let target := (st.users.getD idx defaultUserEntry).2
      ({ st with
          interactions := (rowId, mkInteraction rowId target.uid text positive) ::
            st.interactions }, rngNext rng)
  | .retailRow rowId cid amount _ =>
    let st1 :=
      if hasKey cid st.users then st
      else { st with users := (cid, mkRetailUser cid rows) :: st.users }
    if hasKey rowId st1.bets then (st1, rng)
    else
      let sportIdx := draw rng sportsPool.length
      let winRoll := draw (rngNext rng) 100
      ({ st1 with bets := (rowId, mkRetailBet rowId cid amount sportIdx winRoll) ::
          st1.bets }, rngNext (rngNext rng))
  | .matchRow matchId sport homeWon =>
    let key := matchKeyOffset + matchId
    if hasKey key st.bets then p
    else if st.users = [] then
      let pu := placeholderUser key
      let sideRoll := draw rng 2
      let stakeRoll := draw (rngNext rng) 100
      ({ st with
          users := (pu.sourceCustomerId, pu) :: st.users
          bets := (key, mkMatchBet key pu.uid sport homeWon sideRoll stakeRoll) ::
            st.bets }, rngNext (rngNext rng))
    else
      let idx := draw rng st.users.length
      let target := (st.users.getD idx defaultUserEntry).2
      let sideRoll := draw (rngNext rng) 2
      let stakeRoll := draw (rngNext (rngNext rng)) 100
      ({ st with
          bets := (key, mkMatchBet key target.uid sport homeWon sideRoll stakeRoll) ::
            st.bets }, rngNext (rngNext (rngNext rng)))

/-- Modelled from the spec (§4.2): a full Schema Transformer run over a raw
row set, with all randomness drawn from the injected seed. -/
def transformRun (seed : ℕ) (st : TransformState) (rows : List RawRow) :
    TransformState :=
  (rows.foldl (transformStep rows) (st, seed)).1

/-!
### Feature Engine (§4.3): RFM quantile scoring

Modelled from the spec: raw values are converted to 1–5 ordinal scores via
quintile binning computed across the full User population at scoring time.
A user's bin is determined by their rank in the population, ties broken by
position (stable). -/

/-- The quintile score of the element of rank `r` in a population of size
`n`: `1 + ⌊5·r/n⌋`. -/
def rfmScoreOfRank (n r : ℕ) : ℕ := 1 + 5 * r / n

/-- The stable rank of position `i` in the value list `vals`: the number of
positions holding a strictly smaller value, plus earlier positions holding
an equal value. -/
def stableRank (vals : List ℚ) (i : ℕ) : ℕ :=
  ((Finset.range vals.length).filter fun j =>
    vals.getD j 0 < vals.getD i 0 ∨ (vals.getD j 0 = vals.getD i 0 ∧ j < i)).card

/-- Modelled from the spec (§4.3): the failure taxonomy of §7. -/
inductive PipelineError where
  | missingFile
  | schemaMismatch
  | parseError
  | dataQuality
  | insufficientData
  | insufficientLabels
  deriving DecidableEq, Repr

/-- Minimum population size to form quintiles meaningfully (§4.3, default 5). -/
def minPopulationSize : ℕ := 5

/-- Neutral default score handed out by the low-population fallback (§4.3). -/
def neutralScore : ℕ := 3

def recencyQ (u : User) : ℚ := (u.recencyRaw : ℚ)
def frequencyQ (u : User) : ℚ := (u.frequencyRaw : ℚ)
def monetaryQ (u : User) : ℚ := u.monetaryRaw

/-- The quintile-scored copy of the user at position `i` of population `us`. -/
def scoredUser (us : List User) (i : ℕ) (u : User) : User :=
  { u with
    rScore := rfmScoreOfRank us.length (stableRank (us.map recencyQ) i)
    fScore := rfmScoreOfRank us.length (stableRank (us.map frequencyQ) i)
    mScore := rfmScoreOfRank us.length (stableRank (us.map monetaryQ) i) }

/-- Scoring of the user at position `i`: quintile scores when the population
is large enough, otherwise the neutral default with the quality flag set. -/
def scoreOne (us : List User) (i : ℕ) (u : User) : User :=
  if us.length < minPopulationSize then
    { u with rScore := neutralScore, fScore := neutralScore,
             mScore := neutralScore, lowDataFlag := true }
  else scoredUser us i u

/-- Result of scoring a population: the scored users (in order) and the
error raised, if any. -/
structure ScorePopResult where
  users : List User
  error : Option PipelineError
  deriving DecidableEq, Repr

/-- Modelled from the spec (§4.3): RFM quantile scoring of the full User
population.  Below the minimum population size it fails with
`InsufficientDataError` but still assigns every user the neutral default
score with a recorded quality flag (recoverable fallback, §7). -/
def scorePopulation (us : List User) : ScorePopResult :=
  { users := us.enum.map fun q => scoreOne us q.1 q.2
    error := if us.length < minPopulationSize then some .insufficientData else none }

/-- The Feature Engine stage on the materialized state: rewrites every
user's scores in place (keys and identities untouched). -/
def applyScores (st : TransformState) : TransformState :=
  { st with
    users := st.users.enum.map fun q =>
      (q.2.1, scoreOne (st.users.map Prod.snd) q.1 q.2.2) }

/-!
### Full pipeline (§2, §4.7) -/

/-- The User/Bet/Interaction sets produced by a pipeline run. -/
structure PipelineOutput where
  users : List User
  bets : List Bet
  interactions : List Interaction
  error : Option PipelineError
  deriving DecidableEq, Repr

/-- Modelled from the spec (§2 data flow): loader → transformer → feature
engine, producing the materialized entity sets.  All randomness comes from
the injected seed (§9). -/
def runPipeline (seed : ℕ) (rows : List RawRow) : PipelineOutput :=
  let st := transformRun seed initState rows
  let scored := scorePopulation (st.users.map Prod.snd)
  { users := scored.users
    bets := st.bets.map Prod.snd
    interactions := st.interactions.map Prod.snd
    error := scored.error }

/-- A byte serialization of one user. -/
def serializeUser (u : User) : String :=
  toString u.uid ++ "," ++ toString u.sourceCustomerId ++ "," ++
    toString u.recencyRaw ++ "," ++ toString u.frequencyRaw ++ "," ++
    toString u.monetaryRaw.num ++ "/" ++ toString u.monetaryRaw.den ++ "," ++
    toString u.rScore ++ toString u.fScore ++ toString u.mScore ++ "," ++
    toString u.lowDataFlag

def serializeBet (b : Bet) : String :=
  toString b.betId ++ "," ++ toString b.userId ++ "," ++ b.sport ++ "," ++
    toString b.stake.num ++ "/" ++ toString b.stake.den ++ "," ++
    toString b.odds.num ++ "," ++ toString b.outcomeWin

def serializeInteraction (i : Interaction) : String :=
  toString i.iid ++ "," ++ toString i.userId ++ "," ++ i.text ++ "," ++
    i.label ++ "," ++ toString i.score.num ++ "," ++ toString i.confidence.num

/-- Byte serialization of the entity sets of a pipeline run, used to state
byte-identity of outputs. -/
def serializeOutput (o : PipelineOutput) : String :=
  String.intercalate ";" (o.users.map serializeUser) ++ "|" ++
    String.intercalate ";" (o.bets.map serializeBet) ++ "|" ++
    String.intercalate ";" (o.interactions.map serializeInteraction)

/-!
### Pipeline Orchestrator (§4.7) -/

/-- Modelled from the spec (§4.7): the per-run states of the Orchestrator
state machine. -/
inductive RunState where
  | PENDING | LOADING | TRANSFORMING | FEATURIZING | SCORING | DONE | FAILED
  deriving DecidableEq, Repr

/-- Modelled from the spec (§4.7): the transition relation of the per-run
state machine — the forward chain, plus `FAILED` reachable from any
state. -/
inductive OrchTransition : RunState → RunState → Prop where
  | start : OrchTransition .PENDING .LOADING
  | loaded : OrchTransition .LOADING .TRANSFORMING
  | transformed : OrchTransition .TRANSFORMING .FEATURIZING
  | featurized : OrchTransition .FEATURIZING .SCORING
  | scored : OrchTransition .SCORING .DONE
  | fail (s : RunState) : OrchTransition s .FAILED

/-- Modelled from the spec (§3 PipelineRun): per-stage status. -/
inductive StageStatus where
  | pending | running | succeeded | failed
  deriving DecidableEq, Repr

/-- The four stages an orchestrated run sequences (§4.7). -/
inductive OrchStage where
  | loading | transforming | featurizing | scoring
  deriving DecidableEq, Repr

/-- The order in which the Orchestrator sequences its stages. -/
def stageOrder : List OrchStage := [.loading, .transforming, .featurizing, .scoring]

/-- Modelled from the spec (§4.7): resumption re-runs only incomplete
stages — the stages to execute on (re-)start are those not already
succeeded, in pipeline order. -/
def stagesToRun (status : OrchStage → StageStatus) : List OrchStage :=
  stageOrder.filter fun s => !(status s == StageStatus.succeeded)

/-- The stage-status table of a run interrupted after LOADING completed but
before TRANSFORMING started. -/
def interruptedAfterLoading : OrchStage → StageStatus
  | .loading => .succeeded
  | _ => .pending

/-!
### Sentiment Analyzer (§4.6) -/

/-- Modelled from the spec (§10 glossary, §4.6): which classifier produced
a result. -/
inductive Provenance where
  | primary | fallback
  deriving DecidableEq, Repr

/-- Modelled from the spec (§4.6): ways the primary model can raise. -/
inductive PrimaryError where
  | unavailable | timeout
  deriving DecidableEq, Repr

/-- Modelled from the spec (§4.6): the analyzer's result — label,
signed score, confidence, detected aspects, and the provenance flag. -/
structure AnalyzerResult where
  label : String
  score : ℚ
  confidence : ℚ
  aspects : List String
  provenance : Provenance
  deriving DecidableEq, Repr

/-- The confidence floor below which the analyzer falls back (§4.6,
default 0.5). -/
def confidenceFloor : ℚ := 1/2

def positiveLexicon : List String := ["great", "good", "amazing", "love", "best", "win"]

def negativeLexicon : List String := ["terrible", "bad", "awful", "worst", "waiting", "hours"]

/-- Number of lexicon words occurring in the (lowercased) text. -/
def lexiconHits (text : String) (lexicon : List String) : ℕ :=
  (lexicon.filter fun w => jsIncludes (jsToLower text) w).length

/-- Modelled from the spec (§4.6): the lightweight lexical/statistical
fallback classifier.  Label by majority of lexicon hits; the score is the
normalized hit difference and the confidence the normalized majority share
(one half when no lexicon word occurs). -/
def fallbackClassify (text : String) : String × ℚ × ℚ :=
  let p := lexiconHits text positiveLexicon
  let q := lexiconHits text negativeLexicon
  let label := if q < p then "positive" else if p < q then "negative" else "neutral"
  let score : ℚ := if p + q = 0 then 0 else ((p : ℚ) - (q : ℚ)) / ((p : ℚ) + (q : ℚ))
  let conf : ℚ := if p + q = 0 then 1/2 else (max p q : ℚ) / ((p : ℚ) + (q : ℚ))
  (label, score, conf)

/-- Modelled from the spec (§4.6): the fixed domain vocabulary for aspect
extraction, keyword → aspect tag. -/
def aspectVocabulary : List (String × String) :=
  [("odds", "odds"), ("payout", "payouts"),
   ("customer service", "customer_service"), ("interface", "user_interface"),
   ("app", "mobile_app")]

/-- Modelled from the spec (§4.6): keyword/phrase match against the fixed
vocabulary, independent of the sentiment source. -/
def extractAspects (text : String) : List String :=
  (aspectVocabulary.filter fun kv => jsIncludes (jsToLower text) kv.1).map Prod.snd

/-- The signed score attached to a primary result (label at confidence `c`). -/
def primaryScore (label : String) (c : ℚ) : ℚ :=
  if label = "positive" then c else if label = "negative" then -c else 0

/-- Modelled from the spec (§4.6): one analyzer call,
`PRIMARY_ATTEMPT → (success | fallback) → ASPECT_EXTRACTION → RESULT`.
The primary attempt's outcome (label and confidence, or an error) is passed
explicitly; the fallback is taken exactly when the primary raised or its
confidence fell below the floor, and the provenance flag records which
classifier produced the result. -/
def analyzeText (primaryOutcome : Except PrimaryError (String × ℚ))
    (text : String) : AnalyzerResult :=
  match primaryOutcome with
  | .error _ =>
    let r := fallbackClassify text
    { label := r.1, score := r.2.1, confidence := r.2.2
      aspects := extractAspects text, provenance := .fallback }
  | .ok (label, c) =>
    if c < confidenceFloor then
      let r := fallbackClassify text
      { label := r.1, score := r.2.1, confidence := r.2.2
        aspects := extractAspects text, provenance := .fallback }
    else
      { label := label, score := primaryScore label c, confidence := c
        aspects := extractAspects text, provenance := .primary }

/-!
### Pipeline operations and referential integrity (§3 invariants) -/

/-- The user identities materialized in a state. -/
def userIds (st : TransformState) : List ℕ :=
  st.users.map fun p => p.2.uid

/-- Referential integrity (§3): every Bet and every Interaction references
an existing User. -/
def wfState (st : TransformState) : Prop :=
  (∀ p ∈ st.bets, p.2.userId ∈ userIds st) ∧
    (∀ p ∈ st.interactions, p.2.userId ∈ userIds st)

/-- Keyed users carry their key as identity (all creation paths key a user
by its own source identifier). -/
def keyedByUid (st : TransformState) : Prop :=
  ∀ p ∈ st.users, p.1 = p.2.uid

/-- Modelled from the spec: the operations a pipeline run applies to the
materialized state — ingesting one raw row (Schema Transformer, and the
Sentiment Analyzer attributing a scored text to a user) and the Feature
Engine scoring pass. -/
inductive PipelineOp where
  | ingest (rows : List RawRow) (row : RawRow) (rng : ℕ)
  | score

/-- Applying one pipeline operation to the state. -/
def applyOp : PipelineOp → TransformState → TransformState
  | .ingest rows row rng, st => (transformStep rows (st, rng) row).1
  | .score, st => applyScores st

/-- The states reachable from the empty initial state by pipeline
operations. -/
inductive Reachable : TransformState → Prop where
  | init : Reachable initState
  | step (op : PipelineOp) {st : TransformState} :
      Reachable st → Reachable (applyOp op st)

/-- All keys of `st` are present in `st'` (entity sets only ever grow). -/
def keysLe (st st' : TransformState) : Prop :=
  (∀ k, hasKey k st.users = true → hasKey k st'.users = true) ∧
    (∀ k, hasKey k st.bets = true → hasKey k st'.bets = true) ∧
    (∀ k, hasKey k st.interactions = true → hasKey k st'.interactions = true)

/-- The entities a raw row gives rise to are already materialized in `st`
(under their stable keys). -/
def rowProcessed (st : TransformState) : RawRow → Prop
  | .sentimentRow rowId _ _ => hasKey rowId st.interactions = true
  | .retailRow rowId cid _ _ =>
      hasKey cid st.users = true ∧ hasKey rowId st.bets = true
  | .matchRow matchId _ _ => hasKey (matchKeyOffset + matchId) st.bets = true

end Pipeline

/-! ## Theorems -/

open Pipeline

/-- C3: at the default thresholds, the churn risk bucket is `"Low"` exactly
below 0.3, `"Medium"` exactly on [0.3, 0.6), `"High"` exactly from 0.6 up,
and every probability in [0,1] lands in one of the three buckets. -/
theorem claim3_churn_risk_bucketing (p : ℚ) (_h0 : 0 ≤ p) (_h1 : p ≤ 1) :
    (Frontend.getChurnRiskLabel p = "Low" ↔ p < 3/10) ∧
    (Frontend.getChurnRiskLabel p = "Medium" ↔ 3/10 ≤ p ∧ p < 6/10) ∧
    (Frontend.getChurnRiskLabel p = "High" ↔ 6/10 ≤ p) ∧
    (Frontend.getChurnRiskLabel p = "Low" ∨ Frontend.getChurnRiskLabel p = "Medium" ∨
      Frontend.getChurnRiskLabel p = "High") := by
  unfold Frontend.getChurnRiskLabel
  split_ifs with hA hB
  · refine ⟨iff_of_true rfl hA, iff_of_false (by decide) ?_, iff_of_false (by decide) ?_, .inl rfl⟩
    · rintro ⟨h, -⟩; linarith
    · intro h; linarith
  · refine ⟨iff_of_false (by decide) ?_, iff_of_true rfl ⟨by linarith, hB⟩,
      iff_of_false (by decide) ?_, .inr (.inl rfl)⟩
    · intro h; exact hA h
    · intro h; linarith
  · refine ⟨iff_of_false (by decide) ?_, iff_of_false (by decide) ?_,
      iff_of_true rfl (by linarith), .inr (.inr rfl)⟩
    · intro h; exact hA h
    · rintro ⟨-, h⟩; exact hB h

/-- Witness for C3 at the concrete probability 0.45. -/
theorem claim3_churn_risk_bucketing_witness :
    Frontend.getChurnRiskLabel (9/20) = "Medium" :=
  (claim3_churn_risk_bucketing (9/20) (by norm_num) (by norm_num)).2.1.mpr
    (by norm_num)

/-- C9: when the input text is empty or whitespace-only, `analyzeSentiment`
returns before doing anything: no state field changes and no network
request is issued. -/
theorem claim9_blank_input_is_noop {δ : Type} (s : Frontend.PageState δ)
    (outcome : Frontend.FetchOutcome) (now : String)
    (h : jsTrim s.inputText = "") :
    Frontend.analyzeSentiment s outcome now = (s, false) := by
  unfold Frontend.analyzeSentiment
  rw [if_pos h]

/-- Witness for C9: a whitespace-only input on a concrete component state. -/
theorem claim9_blank_input_is_noop_witness :
    Frontend.analyzeSentiment
      (⟨false, "  \t ", none, (0 : ℕ)⟩ : Frontend.PageState ℕ)
      .notOk "now" = (⟨false, "  \t ", none, 0⟩, false) :=
  claim9_blank_input_is_noop _ _ _ (by decide)

/-- C10: on the non-ok response branch, the stored mock result tests
`'great'` before `'terrible'` on the lowercased input (positive 0.8, else
negative −0.7, else neutral 0.1) and its confidence is exactly 0.85. -/
theorem claim10_not_ok_mock_semantics {δ : Type} (s : Frontend.PageState δ)
    (now : String) (h : jsTrim s.inputText ≠ "") :
    (Frontend.analyzeSentiment s .notOk now).1.analysisResult =
        some (Frontend.mockNotOkResult s.inputText now) ∧
    (Frontend.mockNotOkResult s.inputText now).confidence_score = 17/20 ∧
    (jsIncludes (jsToLower s.inputText) "great" = true →
      (Frontend.mockNotOkResult s.inputText now).sentiment_label = "positive" ∧
      (Frontend.mockNotOkResult s.inputText now).sentiment_score = 4/5) ∧
    (jsIncludes (jsToLower s.inputText) "great" = false →
      jsIncludes (jsToLower s.inputText) "terrible" = true →
      (Frontend.mockNotOkResult s.inputText now).sentiment_label = "negative" ∧
      (Frontend.mockNotOkResult s.inputText now).sentiment_score = -7/10) ∧
    (jsIncludes (jsToLower s.inputText) "great" = false →
      jsIncludes (jsToLower s.inputText) "terrible" = false →
      (Frontend.mockNotOkResult s.inputText now).sentiment_label = "neutral" ∧
      (Frontend.mockNotOkResult s.inputText now).sentiment_score = 1/10) := by
  refine ⟨?_, rfl, ?_, ?_, ?_⟩
  · simp only [Frontend.analyzeSentiment, if_neg h]
  · intro hg; constructor <;> simp [Frontend.mockNotOkResult, hg]
  · intro hg ht; constructor <;> simp [Frontend.mockNotOkResult, hg, ht]
  · intro hg ht; constructor <;> simp [Frontend.mockNotOkResult, hg, ht]

/-- Witness for C10: an input containing both `'great'` and `'terrible'`
is classified positive with score 0.8 on the non-ok branch. -/
theorem claim10_not_ok_mock_semantics_witness :
    (Frontend.mockNotOkResult "Great odds but terrible payouts" "now").sentiment_label =
        "positive" ∧
    (Frontend.mockNotOkResult "Great odds but terrible payouts" "now").sentiment_score =
        4/5 := by
  have h := claim10_not_ok_mock_semantics
    (⟨false, "Great odds but terrible payouts", none, (0 : ℕ)⟩ : Frontend.PageState ℕ)
    "now" (by decide)
  exact h.2.2.1 (by decide)

/-- C5: the Orchestrator's transitions are exactly the forward chain
PENDING → LOADING → TRANSFORMING → FEATURIZING → SCORING → DONE plus
FAILED from any state; resumption runs exactly the not-yet-succeeded
stages in order, so a run interrupted after LOADING resumes at
TRANSFORMING without re-loading. -/
theorem claim5_orchestrator_state_machine :
    (∀ s t : RunState, OrchTransition s t ↔
      ((s = .PENDING ∧ t = .LOADING) ∨ (s = .LOADING ∧ t = .TRANSFORMING) ∨
       (s = .TRANSFORMING ∧ t = .FEATURIZING) ∨ (s = .FEATURIZING ∧ t = .SCORING) ∨
       (s = .SCORING ∧ t = .DONE) ∨ t = .FAILED)) ∧
    (∀ (status : OrchStage → StageStatus) (s : OrchStage),
      s ∈ stagesToRun status ↔ s ∈ stageOrder ∧ status s ≠ .succeeded) ∧
    stagesToRun interruptedAfterLoading = [.transforming, .featurizing, .scoring] := by
  refine ⟨?_, ?_, by decide⟩
  · intro s t
    constructor
    · intro h
      cases h <;> simp
    · rintro (⟨rfl, rfl⟩ | ⟨rfl, rfl⟩ | ⟨rfl, rfl⟩ | ⟨rfl, rfl⟩ | ⟨rfl, rfl⟩ | rfl)
      exacts [.start, .loaded, .transformed, .featurized, .scored, .fail s]
  · intro status s
    simp [stagesToRun, List.mem_filter]

/-- C7: with fewer than 5 users at scoring time, quantile scoring fails
with `InsufficientDataError`, yet every user is still scored with the
neutral default 3 on all of R, F and M, carrying the quality flag. -/
theorem claim7_insufficient_population_default (us : List User)
    (h : us.length < 5) :
    (scorePopulation us).error = some .insufficientData ∧
    (scorePopulation us).users.length = us.length ∧
    ∀ u ∈ (scorePopulation us).users,
      u.rScore = 3 ∧ u.fScore = 3 ∧ u.mScore = 3 ∧ u.lowDataFlag = true := by
  have hlt : us.length < minPopulationSize := h
  refine ⟨?_, ?_, ?_⟩
  · simp [scorePopulation, if_pos hlt]
  · simp [scorePopulation]
  · intro u hu
    simp only [scorePopulation, List.mem_map] at hu
    obtain ⟨q, -, rfl⟩ := hu
    simp [scoreOne, if_pos hlt, neutralScore]

/-- The fallback classifier's confidence is always within [0,1]. -/
theorem fallbackClassify_confidence_bounds (text : String) :
    0 ≤ (fallbackClassify text).2.2 ∧ (fallbackClassify text).2.2 ≤ 1 := by
  unfold fallbackClassify
  set p := lexiconHits text positiveLexicon with hp
  set q := lexiconHits text negativeLexicon with hq
  dsimp only
  split_ifs with h
  · norm_num
  · have hpos : (0 : ℚ) < (p : ℚ) + (q : ℚ) := by
      have : 0 < p + q := Nat.pos_of_ne_zero h
      exact_mod_cast this
    constructor
    · exact div_nonneg (by exact_mod_cast Nat.zero_le _) (le_of_lt hpos)
    · rw [div_le_one hpos]
      have : max p q ≤ p + q := max_le (Nat.le_add_right p q) (Nat.le_add_left q p)
      exact_mod_cast this

/-- C4: the analyzer's confidence is in [0,1] whenever the primary reports
a valid confidence; a result is always produced; and the provenance flag is
`fallback` exactly when the primary raised or reported confidence below the
floor, and `primary` otherwise. -/
theorem claim4_sentiment_fallback_semantics
    (outcome : Except PrimaryError (String × ℚ)) (text : String)
    (hvalid : ∀ l c, outcome = .ok (l, c) → 0 ≤ c ∧ c ≤ 1) :
    (0 ≤ (analyzeText outcome text).confidence ∧
      (analyzeText outcome text).confidence ≤ 1) ∧
    ((analyzeText outcome text).provenance = .fallback ↔
      ((∃ e, outcome = .error e) ∨
        ∃ l c, outcome = .ok (l, c) ∧ c < confidenceFloor)) ∧
    ((analyzeText outcome text).provenance = .primary ↔
      ∃ l c, outcome = .ok (l, c) ∧ confidenceFloor ≤ c) := by
  match outcome with
  | .error e =>
    refine ⟨fallbackClassify_confidence_bounds text, ?_, ?_⟩
    · simp [analyzeText]
    · simp [analyzeText]
  | .ok (l, c) =>
    by_cases hc : c < confidenceFloor
    · refine ⟨?_, ?_, ?_⟩
      · simpa [analyzeText, hc] using fallbackClassify_confidence_bounds text
      · simp only [analyzeText, if_pos hc]
        exact iff_of_true trivial (.inr ⟨l, c, rfl, hc⟩)
      · simp only [analyzeText, if_pos hc]
        refine iff_of_false (by decide) ?_
        rintro ⟨l', c', hoc, hge⟩
        obtain ⟨rfl, rfl⟩ : l' = l ∧ c' = c := by
          have := congrArg (fun x => match x with | .ok y => y | .error _ => (l, c)) hoc
          simp at this
          exact ⟨this.1.symm, this.2.symm⟩
        exact absurd hc (not_lt.mpr hge)
    · refine ⟨?_, ?_, ?_⟩
      · simpa [analyzeText, hc] using hvalid l c rfl
      · simp only [analyzeText, if_neg hc]
        refine iff_of_false (by decide) ?_
        rintro (⟨e, he⟩ | ⟨l', c', hoc, hlt⟩)
        · exact Except.noConfusion he
        · obtain ⟨rfl, rfl⟩ : l' = l ∧ c' = c := by
            have := congrArg (fun x => match x with | .ok y => y | .error _ => (l, c)) hoc
            simp at this
            exact ⟨this.1.symm, this.2.symm⟩
          exact hc hlt
      · simp only [analyzeText, if_neg hc]
        exact iff_of_true trivial ⟨l, c, rfl, not_lt.mp hc⟩

/-- Witness for C4: a primary success at confidence 0.3 falls back; the
returned confidence is within bounds and the provenance flag is set. -/
theorem claim4_sentiment_fallback_semantics_witness :
    (0 ≤ (analyzeText (.ok ("positive", 3/10)) "great odds").confidence ∧
      (analyzeText (.ok ("positive", 3/10)) "great odds").confidence ≤ 1) ∧
    (analyzeText (.ok ("positive", 3/10)) "great odds").provenance = .fallback := by
  have h := claim4_sentiment_fallback_semantics (.ok ("positive", 3/10)) "great odds"
    (by rintro l c ⟨rfl, rfl⟩; norm_num)
  exact ⟨h.1, h.2.1.mpr (.inr ⟨"positive", 3/10, rfl, by norm_num [confidenceFloor]⟩)⟩

/-- Witness for C7 on a concrete two-user population. -/
theorem claim7_insufficient_population_default_witness :
    (scorePopulation [defaultUser, placeholderUser 3]).error =
        some .insufficientData ∧
    ∀ u ∈ (scorePopulation [defaultUser, placeholderUser 3]).users,
      u.rScore = 3 ∧ u.fScore = 3 ∧ u.mScore = 3 ∧ u.lowDataFlag = true := by
  have h := claim7_insufficient_population_default [defaultUser, placeholderUser 3]
    (by decide)
  exact ⟨h.1, h.2.2⟩

/-! ### Idempotence of the Schema Transformer (C6) -/

@[simp]
theorem hasKey_nil {α : Type} (k : ℕ) : hasKey k ([] : List (ℕ × α)) = false := rfl

@[simp]
theorem hasKey_cons {α : Type} (k : ℕ) (p : ℕ × α) (l : List (ℕ × α)) :
    hasKey k (p :: l) = (p.1 == k || hasKey k l) := rfl

theorem hasKey_of_cons {α : Type} {k : ℕ} {l : List (ℕ × α)} (p : ℕ × α)
    (h : hasKey k l = true) : hasKey k (p :: l) = true := by
  simp [h]

theorem keysLe_refl (st : TransformState) : keysLe st st :=
  ⟨fun _ h => h, fun _ h => h, fun _ h => h⟩

theorem keysLe_trans {s1 s2 s3 : TransformState} (h1 : keysLe s1 s2)
    (h2 : keysLe s2 s3) : keysLe s1 s3 :=
  ⟨fun k h => h2.1 k (h1.1 k h), fun k h => h2.2.1 k (h1.2.1 k h),
    fun k h => h2.2.2 k (h1.2.2 k h)⟩

theorem transformStep_keysLe (rows : List RawRow) (p : TransformState × ℕ)
    (row : RawRow) : keysLe p.1 (transformStep rows p row).1 := by
  obtain ⟨st, rng⟩ := p
  cases row with
  | sentimentRow rowId text positive =>
    simp only [transformStep]
    split_ifs with h1 h2
    · exact keysLe_refl _
    · exact ⟨fun k h => hasKey_of_cons _ h, fun k h => h, fun k h => hasKey_of_cons _ h⟩
    · exact ⟨fun k h => h, fun k h => h, fun k h => hasKey_of_cons _ h⟩
  | retailRow rowId cid amount daysAgo =>
    simp only [transformStep]
    split_ifs with h1 h2 h3 <;>
      first
      | exact keysLe_refl _
      | exact ⟨fun k h => h, fun k h => hasKey_of_cons _ h, fun k h => h⟩
      | exact ⟨fun k h => hasKey_of_cons _ h, fun k h => h, fun k h => h⟩
      | exact ⟨fun k h => hasKey_of_cons _ h, fun k h => hasKey_of_cons _ h, fun k h => h⟩
  | matchRow matchId sport homeWon =>
    simp only [transformStep]
    split_ifs with h1 h2
    · exact keysLe_refl _
    · exact ⟨fun k h => hasKey_of_cons _ h, fun k h => hasKey_of_cons _ h, fun k h => h⟩
    · exact ⟨fun k h => h, fun k h => hasKey_of_cons _ h, fun k h => h⟩

theorem foldl_transformStep_keysLe (rows : List RawRow) :
    ∀ (l : List RawRow) (p : TransformState × ℕ),
      keysLe p.1 (l.foldl (transformStep rows) p).1 := by
  intro l
  induction l with
  | nil => intro p; exact keysLe_refl _
  | cons a t ih =>
    intro p
    exact keysLe_trans (transformStep_keysLe rows p a) (ih (transformStep rows p a))

theorem rowProcessed_mono {st st' : TransformState} (h : keysLe st st')
    {row : RawRow} (hp : rowProcessed st row) : rowProcessed st' row := by
  cases row with
  | sentimentRow rowId text positive => exact h.2.2 _ hp
  | retailRow rowId cid amount daysAgo => exact ⟨h.1 _ hp.1, h.2.1 _ hp.2⟩
  | matchRow matchId sport homeWon => exact h.2.1 _ hp

theorem transformStep_establishes (rows : List RawRow) (p : TransformState × ℕ)
    (row : RawRow) : rowProcessed (transformStep rows p row).1 row := by
  obtain ⟨st, rng⟩ := p
  cases row with
  | sentimentRow rowId text positive =>
    simp only [transformStep, rowProcessed]
    split_ifs with h1 h2 <;> simp [h1]
  | retailRow rowId cid amount daysAgo =>
    simp only [transformStep, rowProcessed]
    split_ifs with h1 h2 h3 <;> simp_all
  | matchRow matchId sport homeWon =>
    simp only [transformStep, rowProcessed]
    split_ifs with h1 h2 <;> simp [h1]

theorem transformStep_of_processed (rows : List RawRow) (p : TransformState × ℕ)
    {row : RawRow} (h : rowProcessed p.1 row) : transformStep rows p row = p := by
  obtain ⟨st, rng⟩ := p
  cases row with
  | sentimentRow rowId text positive =>
    simp only [rowProcessed] at h
    simp only [transformStep, if_pos h]
  | retailRow rowId cid amount daysAgo =>
    obtain ⟨hu, hb⟩ := h
    simp only [transformStep, if_pos hu, if_pos hb]
  | matchRow matchId sport homeWon =>
    simp only [rowProcessed] at h
    simp only [transformStep, if_pos h]

theorem foldl_transformStep_processes (rows : List RawRow) :
    ∀ (l : List RawRow) (p : TransformState × ℕ) (row : RawRow), row ∈ l →
      rowProcessed ((l.foldl (transformStep rows) p)).1 row := by
  intro l
  induction l with
  | nil => intro p row hr; exact absurd hr (List.not_mem_nil row)
  | cons a t ih =>
    intro p row hr
    rcases List.mem_cons.mp hr with rfl | hmem
    · exact rowProcessed_mono
        (foldl_transformStep_keysLe rows t (transformStep rows p row))
        (transformStep_establishes rows p row)
    · exact ih (transformStep rows p a) row hmem

theorem foldl_transformStep_of_processed (rows : List RawRow) :
    ∀ (l : List RawRow) (p : TransformState × ℕ),
      (∀ row ∈ l, rowProcessed p.1 row) → l.foldl (transformStep rows) p = p := by
  intro l
  induction l with
  | nil => intro p _; rfl
  | cons a t ih =>
    intro p h
    have ha : transformStep rows p a = p :=
      transformStep_of_processed rows p (h a (List.mem_cons_self a t))
    rw [List.foldl_cons, ha]
    exact ih p fun row hr => h row (List.mem_cons_of_mem a hr)

/-- C6: re-running the Schema Transformer on the same raw row set without
clearing state (under any seed) changes nothing — every source customer
identifier already owning a User is recognized, and the User/Bet/Interaction
sets equal the first run's, identifiers included. -/
theorem claim6_transformation_idempotent (seed1 seed2 : ℕ)
    (st : TransformState) (rows : List RawRow) :
    transformRun seed2 (transformRun seed1 st rows) rows =
      transformRun seed1 st rows := by
  unfold transformRun
  have hall : ∀ row ∈ rows,
      rowProcessed ((rows.foldl (transformStep rows) (st, seed1)).1) row :=
    fun row hr => foldl_transformStep_processes rows rows (st, seed1) row hr
  rw [foldl_transformStep_of_processed rows rows
    ((rows.foldl (transformStep rows) (st, seed1)).1, seed2) hall]

/-! ### Referential integrity (C8) -/

theorem hasKey_iff_exists {α : Type} (k : ℕ) (l : List (ℕ × α)) :
    hasKey k l = true ↔ ∃ p ∈ l, p.1 = k := by
  induction l with
  | nil => simp
  | cons a t ih =>
    simp only [hasKey_cons, Bool.or_eq_true, beq_iff_eq, ih, List.mem_cons]
    constructor
    · rintro (h | ⟨p, hp, hk⟩)
      · exact ⟨a, .inl rfl, h⟩
      · exact ⟨p, .inr hp, hk⟩
    · rintro ⟨p, (rfl | hp), hk⟩
      · exact .inl hk
      · exact .inr ⟨p, hp, hk⟩

theorem getD_mem {α : Type} :
    ∀ (l : List α) (i : ℕ) (d : α), i < l.length → l.getD i d ∈ l
  | [], _, _, h => absurd h (by simp)
  | a :: t, 0, _, _ => List.mem_cons_self a t
  | a :: t, i + 1, d, h =>
      List.mem_cons_of_mem a (getD_mem t i d (by simpa using h))

theorem uid_mem_userIds {st : TransformState} {q : ℕ × User}
    (hq : q ∈ st.users) : q.2.uid ∈ userIds st :=
  List.mem_map_of_mem _ hq

theorem sampled_uid_mem {st : TransformState} (rng : ℕ)
    (h : st.users ≠ []) :
    ((st.users.getD (draw rng st.users.length) defaultUserEntry).2).uid ∈
      userIds st := by
  have hlen : 0 < st.users.length := List.length_pos.mpr h
  have hlt : draw rng st.users.length < st.users.length := Nat.mod_lt _ hlen
  exact uid_mem_userIds (getD_mem st.users _ defaultUserEntry hlt)

theorem key_mem_userIds {st : TransformState} {k : ℕ}
    (hkey : keyedByUid st) (h : hasKey k st.users = true) : k ∈ userIds st := by
  obtain ⟨q, hq, hk⟩ := (hasKey_iff_exists k st.users).mp h
  have := hkey q hq
  rw [← hk, this]
  exact uid_mem_userIds hq

theorem transformStep_wf (rows : List RawRow) (p : TransformState × ℕ)
    (row : RawRow) (hwf : wfState p.1) (hkey : keyedByUid p.1) :
    wfState (transformStep rows p row).1 ∧ keyedByUid (transformStep rows p row).1 := by
  obtain ⟨st, rng⟩ := p
  obtain ⟨hbets, hints⟩ := hwf
  cases row with
  | sentimentRow rowId text positive =>
    simp only [transformStep]
    split_ifs with h1 h2
    · exact ⟨⟨hbets, hints⟩, hkey⟩
    · refine ⟨⟨?_, ?_⟩, ?_⟩
      · intro q hq
        simp only [userIds, List.map_cons]
        exact List.mem_cons_of_mem _ (hbets q hq)
      · intro q hq
        simp only [userIds, List.map_cons]
        rcases List.mem_cons.mp hq with rfl | hq
        · exact List.mem_cons_self _ _
        · exact List.mem_cons_of_mem _ (hints q hq)
      · intro q hq
        rcases List.mem_cons.mp hq with rfl | hq
        · rfl
        · exact hkey q hq
    · refine ⟨⟨?_, ?_⟩, hkey⟩
      · intro q hq
        exact hbets q hq
      · intro q hq
        rcases List.mem_cons.mp hq with rfl | hq
        · exact sampled_uid_mem rng h2
        · exact hints q hq
  | retailRow rowId cid amount daysAgo =>
    simp only [transformStep]
    split_ifs with h1 h2 h3
    · exact ⟨⟨hbets, hints⟩, hkey⟩
    · refine ⟨⟨?_, ?_⟩, hkey⟩
      · intro q hq
        rcases List.mem_cons.mp hq with rfl | hq
        · exact key_mem_userIds hkey h1
        · exact hbets q hq
      · exact hints
    · refine ⟨⟨?_, ?_⟩, ?_⟩
      · intro q hq
        simp only [userIds, List.map_cons]
        exact List.mem_cons_of_mem _ (hbets q hq)
      · intro q hq
        simp only [userIds, List.map_cons]
        exact List.mem_cons_of_mem _ (hints q hq)
      · intro q hq
        rcases List.mem_cons.mp hq with rfl | hq
        · rfl
        · exact hkey q hq
    · refine ⟨⟨?_, ?_⟩, ?_⟩
      · intro q hq
        simp only [userIds, List.map_cons]
        rcases List.mem_cons.mp hq with rfl | hq
        · exact List.mem_cons_self _ _
        · exact List.mem_cons_of_mem _ (hbets q hq)
      · intro q hq
        simp only [userIds, List.map_cons]
        exact List.mem_cons_of_mem _ (hints q hq)
      · intro q hq
        rcases List.mem_cons.mp hq with rfl | hq
        · rfl
        · exact hkey q hq
  | matchRow matchId sport homeWon =>
    simp only [transformStep]
    split_ifs with h1 h2
    · exact ⟨⟨hbets, hints⟩, hkey⟩
    · refine ⟨⟨?_, ?_⟩, ?_⟩
      · intro q hq
        simp only [userIds, List.map_cons]
        rcases List.mem_cons.mp hq with rfl | hq
        · exact List.mem_cons_self _ _
        · exact List.mem_cons_of_mem _ (hbets q hq)
      · intro q hq
        simp only [userIds, List.map_cons]
        exact List.mem_cons_of_mem _ (hints q hq)
      · intro q hq
        rcases List.mem_cons.mp hq with rfl | hq
        · rfl
        · exact hkey q hq
    · refine ⟨⟨?_, ?_⟩, hkey⟩
      · intro q hq
        rcases List.mem_cons.mp hq with rfl | hq
        · exact sampled_uid_mem rng h2
        · exact hbets q hq
      · exact hints

theorem scoreOne_uid (us : List User) (i : ℕ) (u : User) :
    (scoreOne us i u).uid = u.uid := by
  unfold scoreOne scoredUser
  split <;> rfl

theorem userIds_applyScores (st : TransformState) :
    userIds (applyScores st) = userIds st := by
  unfold userIds applyScores
  rw [List.map_map]
  have h : ((fun p : ℕ × User => p.2.uid) ∘ fun q : ℕ × ℕ × User =>
      (q.2.1, scoreOne (st.users.map Prod.snd) q.1 q.2.2)) =
      (fun p : ℕ × User => p.2.uid) ∘ Prod.snd := by
    funext q
    simp only [Function.comp_apply]
    exact scoreOne_uid _ _ _
  rw [h, ← List.map_map, List.enum_map_snd]

theorem applyScores_wf (st : TransformState) (hwf : wfState st)
    (hkey : keyedByUid st) :
    wfState (applyScores st) ∧ keyedByUid (applyScores st) := by
  obtain ⟨hbets, hints⟩ := hwf
  refine ⟨⟨?_, ?_⟩, ?_⟩
  · intro q hq
    rw [userIds_applyScores]
    exact hbets q hq
  · intro q hq
    rw [userIds_applyScores]
    exact hints q hq
  · intro q hq
    simp only [applyScores, List.mem_map] at hq
    obtain ⟨e, he, rfl⟩ := hq
    have hmem : e.2 ∈ st.users := by
      have := List.mem_map_of_mem Prod.snd he
      rwa [List.enum_map_snd] at this
    have := hkey e.2 hmem
    simpa [scoreOne_uid] using this

theorem applyOp_wf (op : PipelineOp) (st : TransformState)
    (h : wfState st ∧ keyedByUid st) :
    wfState (applyOp op st) ∧ keyedByUid (applyOp op st) := by
  cases op with
  | ingest rows row rng => exact transformStep_wf rows (st, rng) row h.1 h.2
  | score => exact applyScores_wf st h.1 h.2

theorem reachable_invariant {st : TransformState} (h : Reachable st) :
    wfState st ∧ keyedByUid st := by
  induction h with
  | init =>
    refine ⟨⟨?_, ?_⟩, ?_⟩ <;> intro q hq <;> exact absurd hq (List.not_mem_nil q)
  | step op _ ih => exact applyOp_wf op _ ih

/-- C8: referential integrity is an invariant of every pipeline operation —
in every reachable state, every Bet and every Interaction references a User
that exists in the User set. -/
theorem claim8_referential_integrity (st : TransformState)
    (h : Reachable st) : wfState st :=
  (reachable_invariant h).1

/-- Witness for C8: the state after ingesting one retail row from the
initial state satisfies referential integrity. -/
theorem claim8_referential_integrity_witness :
    wfState (applyOp (.ingest [.retailRow 1 42 50 3] (.retailRow 1 42 50 3) 7)
      initState) :=
  claim8_referential_integrity _ (.step _ .init)

/-! ### Pipeline determinism (C1) -/

/-- C1: the pipeline is a pure function of (seed, input): any two runs with
the same seed on the same input yield byte-identical (and structurally
equal) User, Bet and Interaction sets. -/
theorem claim1_pipeline_deterministic (seed : ℕ) (rows : List RawRow)
    (o1 o2 : PipelineOutput) (h1 : o1 = runPipeline seed rows)
    (h2 : o2 = runPipeline seed rows) :
    serializeOutput o1 = serializeOutput o2 ∧ o1.users = o2.users ∧
      o1.bets = o2.bets ∧ o1.interactions = o2.interactions := by
  subst h1
  subst h2
  exact ⟨rfl, rfl, rfl, rfl⟩

/-- Witness for C1: two runs at seed 5 on a concrete three-row input. -/
theorem claim1_pipeline_deterministic_witness :
    serializeOutput (runPipeline 5
        [.retailRow 1 42 50 3, .sentimentRow 2 "great odds" true,
          .matchRow 3 "football" true]) =
      serializeOutput (runPipeline 5
        [.retailRow 1 42 50 3, .sentimentRow 2 "great odds" true,
          .matchRow 3 "football" true]) :=
  (claim1_pipeline_deterministic 5
    [.retailRow 1 42 50 3, .sentimentRow 2 "great odds" true,
      .matchRow 3 "football" true] _ _ rfl rfl).1

/-! ### RFM quintile scoring (C2) -/

theorem count_map_range (f : ℕ → ℕ) (b : ℕ) (n : ℕ) :
    ((List.range n).map f).count b =
      ((Finset.range n).filter fun i => f i = b).card := by
  induction n with
  | zero => simp
  | succ n ih =>
    rw [List.range_succ, List.map_append, List.count_append, Finset.range_succ,
      Finset.filter_insert]
    by_cases hf : f n = b
    · rw [if_pos hf, Finset.card_insert_of_not_mem (by simp)]
      simp [hf, ih]
    · rw [if_neg hf]
      simp [List.count_cons, hf, ih]

theorem stableRank_lt (vals : List ℚ) {i : ℕ} (hi : i < vals.length) :
    stableRank vals i < vals.length := by
  unfold stableRank
  have hsub : ((Finset.range vals.length).filter fun j =>
      vals.getD j 0 < vals.getD i 0 ∨ (vals.getD j 0 = vals.getD i 0 ∧ j < i)) ⊂
      Finset.range vals.length := by
    rw [Finset.ssubset_iff_of_subset (Finset.filter_subset _ _)]
    exact ⟨i, Finset.mem_range.mpr hi, by simp [Finset.mem_filter]⟩
  calc ((Finset.range vals.length).filter _).card
      < (Finset.range vals.length).card := Finset.card_lt_card hsub
    _ = vals.length := Finset.card_range _

theorem stableRank_lt_stableRank (vals : List ℚ) {i j : ℕ}
    (hi : i < vals.length) (_hj : j < vals.length)
    (hij : vals.getD i 0 < vals.getD j 0 ∨
      (vals.getD i 0 = vals.getD j 0 ∧ i < j)) :
    stableRank vals i < stableRank vals j := by
  unfold stableRank
  apply Finset.card_lt_card
  have hsub : ((Finset.range vals.length).filter fun k =>
      vals.getD k 0 < vals.getD i 0 ∨ (vals.getD k 0 = vals.getD i 0 ∧ k < i)) ⊆
      ((Finset.range vals.length).filter fun k =>
        vals.getD k 0 < vals.getD j 0 ∨ (vals.getD k 0 = vals.getD j 0 ∧ k < j)) := by
    intro k hk
    rw [Finset.mem_filter] at hk ⊢
    refine ⟨hk.1, ?_⟩
    rcases hk.2 with hlt | ⟨heq, hki⟩
    · rcases hij with h | ⟨heq2, -⟩
      · exact .inl (lt_trans hlt h)
      · exact .inl (lt_of_lt_of_eq hlt heq2)
    · rcases hij with h | ⟨heq2, hij2⟩
      · exact .inl (lt_of_eq_of_lt heq h)
      · exact .inr ⟨heq.trans heq2, lt_trans hki hij2⟩
  rw [Finset.ssubset_iff_of_subset hsub]
  refine ⟨i, Finset.mem_filter.mpr ⟨Finset.mem_range.mpr hi, hij⟩, ?_⟩
  simp [Finset.mem_filter]

theorem stableRank_injOn (vals : List ℚ) :
    Set.InjOn (stableRank vals) (Finset.range vals.length) := by
  intro i hi j hj heq
  rw [Finset.coe_range, Set.mem_Iio] at hi hj
  by_contra hne
  rcases lt_trichotomy (vals.getD i 0) (vals.getD j 0) with h | h | h
  · exact absurd heq (ne_of_lt (stableRank_lt_stableRank vals hi hj (.inl h)))
  · rcases Nat.lt_trichotomy i j with hij | rfl | hij
    · exact absurd heq (ne_of_lt (stableRank_lt_stableRank vals hi hj (.inr ⟨h, hij⟩)))
    · exact hne rfl
    · exact absurd heq.symm
        (ne_of_lt (stableRank_lt_stableRank vals hj hi (.inr ⟨h.symm, hij⟩)))
  · exact absurd heq.symm (ne_of_lt (stableRank_lt_stableRank vals hj hi (.inl h)))

theorem stableRank_image (vals : List ℚ) :
    (Finset.range vals.length).image (stableRank vals) =
      Finset.range vals.length := by
  apply Finset.eq_of_subset_of_card_le
  · intro r hr
    obtain ⟨i, hi, rfl⟩ := Finset.mem_image.mp hr
    exact Finset.mem_range.mpr (stableRank_lt vals (Finset.mem_range.mp hi))
  · rw [Finset.card_image_of_injOn (stableRank_injOn vals), Finset.card_range]

theorem card_filter_rank_eq (vals : List ℚ) (b : ℕ) :
    ((Finset.range vals.length).filter fun i =>
        rfmScoreOfRank vals.length (stableRank vals i) = b).card =
      ((Finset.range vals.length).filter fun r =>
        rfmScoreOfRank vals.length r = b).card := by
  apply Finset.card_bij (fun i _ => stableRank vals i)
  · intro i hi
    rw [Finset.mem_filter] at hi ⊢
    exact ⟨Finset.mem_range.mpr (stableRank_lt vals (Finset.mem_range.mp hi.1)), hi.2⟩
  · intro i hi j hj heq
    rw [Finset.mem_filter] at hi hj
    exact stableRank_injOn vals
      (by rw [Finset.coe_range, Set.mem_Iio]; exact Finset.mem_range.mp hi.1)
      (by rw [Finset.coe_range, Set.mem_Iio]; exact Finset.mem_range.mp hj.1) heq
  · intro r hr
    rw [Finset.mem_filter] at hr
    have hmem : r ∈ (Finset.range vals.length).image (stableRank vals) := by
      rw [stableRank_image]
      exact hr.1
    obtain ⟨i, hi, hir⟩ := Finset.mem_image.mp hmem
    refine ⟨i, Finset.mem_filter.mpr ⟨hi, ?_⟩, hir⟩
    rw [hir]
    exact hr.2

theorem div_eq_iff_bounds {r n k : ℕ} (hn : 0 < n) :
    5 * r / n = k ↔ k * n ≤ 5 * r ∧ 5 * r < (k + 1) * n := by
  constructor
  · rintro rfl
    refine ⟨Nat.div_mul_le_self (5 * r) n, ?_⟩
    exact (Nat.div_lt_iff_lt_mul hn).mp (Nat.lt_succ_self _)
  · rintro ⟨h1, h2⟩
    have hk : k ≤ 5 * r / n := (Nat.le_div_iff_mul_le hn).mpr h1
    have hk2 : 5 * r / n < k + 1 := (Nat.div_lt_iff_lt_mul hn).mpr h2
    omega

theorem filter_score_eq_Ico (n k : ℕ) (hn : 0 < n) (hk : k ≤ 4) :
    ((Finset.range n).filter fun r => rfmScoreOfRank n r = k + 1) =
      Finset.Ico ((k * n + 4) / 5) (((k + 1) * n + 4) / 5) := by
  have hb : (k + 1) * n ≤ 5 * n := Nat.mul_le_mul_right n (by omega)
  ext r
  simp only [Finset.mem_filter, Finset.mem_range, Finset.mem_Ico, rfmScoreOfRank]
  constructor
  · rintro ⟨hr, hscore⟩
    have h5 : 5 * r / n = k := by omega
    obtain ⟨h1, h2⟩ := (div_eq_iff_bounds hn).mp h5
    omega
  · intro hIco
    have h1 : k * n ≤ 5 * r := by omega
    have h2 : 5 * r < (k + 1) * n := by omega
    have hrn : r < n := by omega
    have h5 : 5 * r / n = k := (div_eq_iff_bounds hn).mpr ⟨h1, h2⟩
    exact ⟨hrn, by omega⟩

theorem score_count_closed (n k : ℕ) (hn : 0 < n) (hk : k ≤ 4) :
    ((Finset.range n).filter fun r => rfmScoreOfRank n r = k + 1).card =
      ((k + 1) * n + 4) / 5 - (k * n + 4) / 5 := by
  rw [filter_score_eq_Ico n k hn hk, Nat.card_Ico]

theorem score_count_bounds (n k : ℕ) (hn : 0 < n) (hk : k ≤ 4) :
    n / 5 ≤ ((k + 1) * n + 4) / 5 - (k * n + 4) / 5 ∧
      ((k + 1) * n + 4) / 5 - (k * n + 4) / 5 ≤ n / 5 + 1 := by
  interval_cases k <;> constructor <;> omega

theorem score_count_uniform (n : ℕ) (hn : 5 ≤ n) {b1 b2 : ℕ}
    (hb1 : b1 ∈ Finset.Icc 1 5) (hb2 : b2 ∈ Finset.Icc 1 5) :
    ((Finset.range n).filter fun r => rfmScoreOfRank n r = b1).card ≤
      ((Finset.range n).filter fun r => rfmScoreOfRank n r = b2).card + 1 := by
  rw [Finset.mem_Icc] at hb1 hb2
  obtain ⟨k1, rfl⟩ : ∃ k, b1 = k + 1 := ⟨b1 - 1, by omega⟩
  obtain ⟨k2, rfl⟩ : ∃ k, b2 = k + 1 := ⟨b2 - 1, by omega⟩
  have hn0 : 0 < n := by omega
  rw [score_count_closed n k1 hn0 (by omega), score_count_closed n k2 hn0 (by omega)]
  have u1 := score_count_bounds n k1 hn0 (by omega)
  have u2 := score_count_bounds n k2 hn0 (by omega)
  omega

theorem rfmScoreOfRank_bounds {n r : ℕ} (hn : 0 < n) (hr : r < n) :
    1 ≤ rfmScoreOfRank n r ∧ rfmScoreOfRank n r ≤ 5 := by
  unfold rfmScoreOfRank
  have hlt : 5 * r / n < 5 := (Nat.div_lt_iff_lt_mul hn).mpr (by omega)
  exact ⟨Nat.le_add_right 1 _, by rw [Nat.add_comm]; exact Nat.succ_le_of_lt hlt⟩

theorem count_enum_score (us : List User) (vals : List ℚ)
    (hlen : vals.length = us.length) (proj : User → ℕ)
    (hproj : ∀ i u, proj (scoredUser us i u) =
      rfmScoreOfRank us.length (stableRank vals i))
    (hnot : ¬ us.length < minPopulationSize) (b : ℕ) :
    ((us.enum.map fun q => scoreOne us q.1 q.2).map proj).count b =
      ((Finset.range us.length).filter fun r =>
        rfmScoreOfRank us.length r = b).card := by
  rw [List.map_map]
  have hfun : (proj ∘ fun q : ℕ × User => scoreOne us q.1 q.2) =
      (fun i => rfmScoreOfRank us.length (stableRank vals i)) ∘ Prod.fst := by
    funext q
    simp only [Function.comp_apply, scoreOne, if_neg hnot]
    exact hproj q.1 q.2
  rw [hfun, ← List.map_map, List.enum_map_fst, count_map_range]
  rw [← hlen]
  exact card_filter_rank_eq vals b

/-- C2: for a population of at least 5 users, every quintile-scored user's
R, F and M scores are integers in {1,…,5}, and within each dimension the
per-bucket user counts are uniform up to 1. -/
theorem claim2_rfm_quintile_uniformity (us : List User) (h5 : 5 ≤ us.length) :
    (∀ u ∈ (scorePopulation us).users,
      (1 ≤ u.rScore ∧ u.rScore ≤ 5) ∧ (1 ≤ u.fScore ∧ u.fScore ≤ 5) ∧
        (1 ≤ u.mScore ∧ u.mScore ≤ 5)) ∧
    (∀ b1 ∈ Finset.Icc 1 5, ∀ b2 ∈ Finset.Icc 1 5,
      (((scorePopulation us).users.map fun u => u.rScore).count b1 ≤
        ((scorePopulation us).users.map fun u => u.rScore).count b2 + 1) ∧
      (((scorePopulation us).users.map fun u => u.fScore).count b1 ≤
        ((scorePopulation us).users.map fun u => u.fScore).count b2 + 1) ∧
      (((scorePopulation us).users.map fun u => u.mScore).count b1 ≤
        ((scorePopulation us).users.map fun u => u.mScore).count b2 + 1)) := by
  have hnot : ¬ us.length < minPopulationSize := by
    unfold minPopulationSize
    omega
  have hn0 : 0 < us.length := by omega
  have husers : (scorePopulation us).users =
      us.enum.map fun q => scoreOne us q.1 q.2 := rfl
  constructor
  · intro u hu
    rw [husers] at hu
    rw [List.mem_map] at hu
    obtain ⟨q, hq, rfl⟩ := hu
    have hq1 : q.1 < us.length := by
      have hmem : q.1 ∈ List.range us.length := by
        rw [← List.enum_map_fst us]
        exact List.mem_map_of_mem _ hq
      exact List.mem_range.mp hmem
    have hrankR : stableRank (us.map recencyQ) q.1 < us.length := by
      have h := stableRank_lt (us.map recencyQ)
        (i := q.1) (by rw [List.length_map]; exact hq1)
      rwa [List.length_map] at h
    have hrankF : stableRank (us.map frequencyQ) q.1 < us.length := by
      have h := stableRank_lt (us.map frequencyQ)
        (i := q.1) (by rw [List.length_map]; exact hq1)
      rwa [List.length_map] at h
    have hrankM : stableRank (us.map monetaryQ) q.1 < us.length := by
      have h := stableRank_lt (us.map monetaryQ)
        (i := q.1) (by rw [List.length_map]; exact hq1)
      rwa [List.length_map] at h
    simp only [scoreOne, if_neg hnot, scoredUser]
    exact ⟨rfmScoreOfRank_bounds hn0 hrankR, rfmScoreOfRank_bounds hn0 hrankF,
      rfmScoreOfRank_bounds hn0 hrankM⟩
  · intro b1 hb1 b2 hb2
    rw [husers]
    refine ⟨?_, ?_, ?_⟩
    · rw [count_enum_score us (us.map recencyQ) (by rw [List.length_map])
          (fun u => u.rScore) (fun i u => rfl) hnot b1,
        count_enum_score us (us.map recencyQ) (by rw [List.length_map])
          (fun u => u.rScore) (fun i u => rfl) hnot b2]
      exact score_count_uniform us.length h5 hb1 hb2
    · rw [count_enum_score us (us.map frequencyQ) (by rw [List.length_map])
          (fun u => u.fScore) (fun i u => rfl) hnot b1,
        count_enum_score us (us.map frequencyQ) (by rw [List.length_map])
          (fun u => u.fScore) (fun i u => rfl) hnot b2]
      exact score_count_uniform us.length h5 hb1 hb2
    · rw [count_enum_score us (us.map monetaryQ) (by rw [List.length_map])
          (fun u => u.mScore) (fun i u => rfl) hnot b1,
        count_enum_score us (us.map monetaryQ) (by rw [List.length_map])
          (fun u => u.mScore) (fun i u => rfl) hnot b2]
      exact score_count_uniform us.length h5 hb1 hb2

/-- Witness for C2 on a concrete five-user population: the count of users
scoring 3 on recency exceeds the count scoring 1 by at most one. -/
theorem claim2_rfm_quintile_uniformity_witness :
    ((scorePopulation [placeholderUser 0, placeholderUser 1, placeholderUser 2,
        placeholderUser 3, placeholderUser 4]).users.map fun u => u.rScore).count 3 ≤
      ((scorePopulation [placeholderUser 0, placeholderUser 1, placeholderUser 2,
        placeholderUser 3, placeholderUser 4]).users.map fun u => u.rScore).count 1 +
        1 :=
  ((claim2_rfm_quintile_uniformity
    [placeholderUser 0, placeholderUser 1, placeholderUser 2,
      placeholderUser 3, placeholderUser 4] (by decide)).2
    3 (by decide) 1 (by decide)).1
